import Mathlib

/-!
Shallow embedding of the baton-carta connector's pagination core
(pkg/carta/client.go, pkg/carta/models.go, pkg/connector/connector.go,
pkg/connector/portfolio.go) and proofs about it.

HTTP transport is modelled by passing the decoded response (or the error
that the transport / decoder produced) to each fetcher as an explicit
argument; the fetchers' post-processing of the response is translated
directly from the Go source.
-/

namespace Carta

/-- models.go: Issuer (BaseResource.Id, legalName, website). -/
structure Issuer where
  Id : String
  Name : String
  Website : String
deriving DecidableEq

/-- models.go: Portfolio (portfolioId, legalName, Issuers). -/
structure Portfolio where
  Id : String
  Name : String
  Issuers : List Issuer
deriving DecidableEq

/-- models.go: InvestorFirm (BaseResource.Id, name). -/
structure InvestorFirm where
  Id : String
  Name : String
deriving DecidableEq

/-- Errors doRequest can return: a non-2xx-status error carrying the numeric
status code (client.go line 218), a JSON decode failure, or a transport
failure from httpClient.Do. -/
inductive Err where
  | statusError (code : Nat)
  | decodeError
  | transportError
deriving DecidableEq

/-- client.go: IssuerResponse (issuers array + PaginationData.Next). -/
structure IssuerResponse where
  issuers : List Issuer
  next : String
deriving DecidableEq

/-- client.go: PortfolioResponse (portfolios array + PaginationData.Next). -/
structure PortfolioResponse where
  portfolios : List Portfolio
  next : String
deriving DecidableEq

/-- client.go: PortfolioIssuerResponse (issuers array + PaginationData.Next). -/
structure PortfolioIssuerResponse where
  issuers : List Issuer
  next : String
deriving DecidableEq

/-- client.go: InvestorResponse (firms array + PaginationData.Next). -/
structure InvestorResponse where
  firms : List InvestorFirm
  next : String
deriving DecidableEq

/-- The Go triple (items, nextCursor, err) each fetcher returns; a Go nil
slice is the empty list. -/
structure FetchResult (α : Type) where
  items : List α
  cursor : String
  err : Option Err
deriving DecidableEq

/-- An HTTP response as doRequest sees it after httpClient.Do succeeds:
the status code, and the body as the decoder sees it (none models a body
on which json.Decode fails). -/
structure HttpResponse (β : Type) where
  statusCode : Nat
  body : Option β
deriving DecidableEq

/-- client.go doRequest, lines 217-225: a status >= 300 is returned as an
error carrying the status code, before the body is decoded; otherwise the
decoded body (or the decode failure) is the result. -/
def doRequest {β : Type} (resp : HttpResponse β) : Except Err β :=
  if 300 ≤ resp.statusCode then .error (.statusError resp.statusCode)
  else
    match resp.body with
    | none => .error .decodeError
    | some v => .ok v

/-- client.go setupPaginationQuery, lines 58-70: add pageSize when size is
nonzero, then pageToken when after is non-empty. url.Values.Add appends a
key/value pair; strconv.Itoa is toString on Int. -/
def setupPaginationQuery (query : List (String × String)) (size : Int)
    (after : String) : List (String × String) :=
  let q1 := if size ≠ 0 then query ++ [("pageSize", toString size)] else query
  if after ≠ "" then q1 ++ [("pageToken", after)] else q1

/-- client.go GetIssuers, lines 73-94: on request error return (nil, "", err);
otherwise return the page's issuers with the response's Next, suppressed to
"" when Next is empty or echoes the After that was just used. -/
def getIssuers (after : String) (r : Except Err IssuerResponse) :
    FetchResult Issuer :=
  match r with
  | .error e => ⟨[], "", some e⟩
  | .ok resp =>
    if after ≠ resp.next ∧ resp.next ≠ "" then ⟨resp.issuers, resp.next, none⟩
    else ⟨resp.issuers, "", none⟩

/-- client.go GetInvestors, lines 174-195: same shape as GetIssuers over
InvestorResponse. -/
def getInvestors (after : String) (r : Except Err InvestorResponse) :
    FetchResult InvestorFirm :=
  match r with
  | .error e => ⟨[], "", some e⟩
  | .ok resp =>
    if after ≠ resp.next ∧ resp.next ≠ "" then ⟨resp.firms, resp.next, none⟩
    else ⟨resp.firms, "", none⟩

/-- client.go GetIssuersForPortfolio, lines 150-171: same shape over
PortfolioIssuerResponse. -/
def getIssuersForPortfolio (after : String)
    (r : Except Err PortfolioIssuerResponse) : FetchResult Issuer :=
  match r with
  | .error e => ⟨[], "", some e⟩
  | .ok resp =>
    if after ≠ resp.next ∧ resp.next ≠ "" then ⟨resp.issuers, resp.next, none⟩
    else ⟨resp.issuers, "", none⟩

/-- The inner loop of GetPortfolios, client.go lines 118-136, run against a
scripted sequence of responses that the service would produce, consumed in
order. Each iteration calls getIssuersForPortfolio with the current cursor;
an error aborts, issuers are appended, an empty returned cursor breaks.
`none` models the Go loop still wanting a page after the script is
exhausted (i.e. it would keep looping); `some (res, n)` is the loop's
outcome after consuming n responses. -/
def drainIssuers : List (Except Err PortfolioIssuerResponse) → String →
    List Issuer → Option (Except Err (List Issuer) × Nat)
  | [], _, _ => none
  | s :: rest, next, acc =>
    let fr := getIssuersForPortfolio next s
    match fr.err with
    | some e => some (.error e, 1)
    | none =>
      let acc' := acc ++ fr.items
      if fr.cursor = "" then some (.ok acc', 1)
      else
        match drainIssuers rest fr.cursor acc' with
        | none => none
        | some p => some (p.1, p.2 + 1)

/-- The per-portfolio aggregation of GetPortfolios, client.go lines 113-139:
for each portfolio in the page, drain its nested issuer sub-collection
starting from the empty cursor and store the accumulated issuers in the
portfolio's Issuers field; any inner error aborts the whole page.
`inner` scripts, per portfolio id, the nested-issuer responses the service
would produce. -/
def aggregatePortfolios
    (inner : String → List (Except Err PortfolioIssuerResponse)) :
    List Portfolio → Option (Except Err (List Portfolio))
  | [] => some (.ok [])
  | p :: rest =>
    match drainIssuers (inner p.Id) "" [] with
    | none => none
    | some (.error e, _) => some (.error e)
    | some (.ok issuers, _) =>
      match aggregatePortfolios inner rest with
      | none => none
      | some (.error e) => some (.error e)
      | some (.ok ps) => some (.ok ({ p with Issuers := issuers } :: ps))

/-- client.go GetPortfolios, lines 97-147: on request error return
(nil, "", err); otherwise aggregate issuers into every portfolio of the
page (any inner error yields (nil, "", err)), then return the page with
the response's Next suppressed to "" when empty or echoing After. -/
def getPortfolios (after : String) (r : Except Err PortfolioResponse)
    (inner : String → List (Except Err PortfolioIssuerResponse)) :
    Option (FetchResult Portfolio) :=
  match r with
  | .error e => some ⟨[], "", some e⟩
  | .ok resp =>
    match aggregatePortfolios inner resp.portfolios with
    | none => none
    | some (.error e) => some ⟨[], "", some e⟩
    | some (.ok ps) =>
      if after ≠ resp.next ∧ resp.next ≠ "" then some ⟨ps, resp.next, none⟩
      else some ⟨ps, "", none⟩

/-- Default values for List.getD indexing in theorem statements. -/
def dPortfolio : Portfolio := ⟨"", "", []⟩

/-- Default PortfolioIssuerResponse for List.getD indexing. -/
def dResp : PortfolioIssuerResponse := ⟨[], ""⟩

/-- The issuers an inner-loop script entry contributes when it is a
successful response (an error entry contributes nothing; the loop aborts
on it anyway). -/
def okItems : Except Err PortfolioIssuerResponse → List Issuer
  | .ok r => r.issuers
  | .error _ => []

/-- A script of pure (non-error) service responses, as the inner loop
consumes them. -/
def okScript (script : List PortfolioIssuerResponse) :
    List (Except Err PortfolioIssuerResponse) :=
  script.map .ok

/-- The cursor with which the inner loop requests the k-th scripted response,
assuming the loop is still running at step k: the initial cursor for k = 0,
and the (k-1)-th response's nextPageToken afterwards (the loop only
continues when the processed cursor equals that raw token). -/
def reqCursor (after : String) (script : List PortfolioIssuerResponse) :
    Nat → String
  | 0 => after
  | k + 1 => (script.getD k dResp).next

/-- The k-th scripted response makes the inner loop stop: its nextPageToken
is empty, or it echoes the cursor that requested it. -/
def stopsAt (after : String) (script : List PortfolioIssuerResponse)
    (k : Nat) : Prop :=
  k < script.length ∧
    ((script.getD k dResp).next = "" ∨
      (script.getD k dResp).next = reqCursor after script k)

instance (after : String) (script : List PortfolioIssuerResponse) (k : Nat) :
    Decidable (stopsAt after script k) := by
  unfold stopsAt; infer_instance

/-- A service that alternates forever between the cursors a and b: the
first n responses it produces, each with an empty item list. -/
def altScript (a b : String) : Nat → List PortfolioIssuerResponse
  | 0 => []
  | n + 1 => ⟨[], a⟩ :: altScript b a n

/-! ## Connector layer (pkg/connector) -/

/-- The resource syncers the connector can build (issuer.go issuerBuilder,
investor.go investorBuilder, portfolio.go portfolioBuilder). -/
inductive SyncerKind where
  | issuerSyncer
  | investorSyncer
  | portfolioSyncer
deriving DecidableEq

/-- connector.go ResourceSyncers, lines 35-40: the connector registers the
issuer and investor syncers. -/
def resourceSyncers : List SyncerKind :=
  [.issuerSyncer, .investorSyncer]

/-- Go strings.Split with a one-character separator, on the character list
of the string: Split("", sep) = [""], and each separator occurrence starts
a new field. -/
def goSplitChar (sep : Char) : List Char → List (List Char)
  | [] => [[]]
  | c :: rest =>
    if c = sep then [] :: goSplitChar sep rest
    else
      match goSplitChar sep rest with
      | [] => [[c]]
      | g :: gs => (c :: g) :: gs

/-- Go strings.Join with a one-character separator, on character lists:
the fields concatenated with the separator between consecutive fields. -/
def goJoinChar (sep : Char) : List (List Char) → List Char
  | [] => []
  | [x] => x
  | x :: y :: ys => x ++ sep :: goJoinChar sep (y :: ys)

/-- strings.Split(s, ",") as used by Grants (portfolio.go line 117). -/
def goSplit (s : String) : List String :=
  (goSplitChar ',' s.toList).map (fun l => ⟨l⟩)

/-- strings.Join(xs, ",") as used by portfolioResource (portfolio.go
line 33). -/
def goJoin (xs : List String) : String :=
  ⟨goJoinChar ',' (xs.map String.toList)⟩

/-- Modelled from the spec: the helper mapIssuerIds referenced by
portfolioResource (portfolio.go line 33) is not among the provided sources;
the spec says the portfolio's issuer field is "the flattened identifier
list extracted from the accumulated issuer records", so it maps each
issuer to its identifier. -/
def mapIssuerIds (issuers : List Issuer) : List String :=
  issuers.map (fun i => i.Id)

/-- portfolio.go portfolioResource, lines 30-34: the profile's
portfolio_issuer_ids value is the comma join of the portfolio's issuer
ids. -/
def portfolioIssuerIdsValue (p : Portfolio) : String :=
  goJoin (mapIssuerIds p.Issuers)

/-- portfolio.go Grants, lines 117-141: the ids Grants looks up (one
GetIssuer call and one membership grant per element of the comma split of
the profile value). -/
def grantsIssuerLookups (issuerIdsString : String) : List String :=
  goSplit issuerIdsString

/-! ## Step lemmas for the inner loop -/

theorem drainIssuers_cons_error (e : Err)
    (rest : List (Except Err PortfolioIssuerResponse)) (after : String)
    (acc : List Issuer) :
    drainIssuers (.error e :: rest) after acc = some (.error e, 1) := rfl

theorem drainIssuers_cons_ok (r : PortfolioIssuerResponse)
    (rest : List (Except Err PortfolioIssuerResponse)) (after : String)
    (acc : List Issuer) :
    drainIssuers (.ok r :: rest) after acc =
      if after ≠ r.next ∧ r.next ≠ "" then
        match drainIssuers rest r.next (acc ++ r.issuers) with
        | none => none
        | some p => some (p.1, p.2 + 1)
      else some (.ok (acc ++ r.issuers), 1) := by
  by_cases hc : after ≠ r.next ∧ r.next ≠ ""
  · simp only [drainIssuers, getIssuersForPortfolio, if_pos hc, if_neg hc.2]
  · simp only [drainIssuers, getIssuersForPortfolio, if_neg hc, if_pos rfl,
      if_true]

theorem okScript_cons (r : PortfolioIssuerResponse)
    (rest : List PortfolioIssuerResponse) :
    okScript (r :: rest) = .ok r :: okScript rest := rfl

/-! ## Claim theorems -/

/-- C5: setupPaginationQuery builds the query conditionally: with pageSize=0
and after="" it adds neither parameter; with pageSize=50 and after="tok1" it
adds both with the given values; in general the pageSize parameter is
present iff size is nonzero and the pageToken parameter is present iff
after is non-empty. -/
theorem setupPaginationQuery_conditional :
    setupPaginationQuery [] 0 "" = [] ∧
    setupPaginationQuery [] 50 "tok1" =
      [("pageSize", "50"), ("pageToken", "tok1")] ∧
    ∀ (size : Int) (after : String),
      ((∃ v, ("pageSize", v) ∈ setupPaginationQuery [] size after) ↔
        size ≠ 0) ∧
      ((∃ v, ("pageToken", v) ∈ setupPaginationQuery [] size after) ↔
        after ≠ "") := by
  refine ⟨by decide, by decide, ?_⟩
  intro size after
  unfold setupPaginationQuery
  by_cases h1 : size = 0 <;> by_cases h2 : after = "" <;>
    simp [h1, h2]

/-- C6 counterexample: status 101 is not in the 2xx range, yet doRequest
does not return an error for it (the code only errors on status ≥ 300), so
the claim as stated is false at status 101. -/
theorem doRequest_non2xx_counterexample :
    ¬ (200 ≤ 101 ∧ 101 < 300) ∧
    doRequest (β := IssuerResponse) ⟨101, some ⟨[], ""⟩⟩ = .ok ⟨[], ""⟩ :=
  ⟨by decide, rfl⟩

/-- C6 amended: any HTTP response with status ≥ 300 (e.g. 404) causes
doRequest to return an error carrying the numeric status code, without
inspecting the response body (the result is the same for any two bodies),
and the calling fetcher then returns nil items and an empty cursor. -/
theorem doRequest_ge300_error (s : Nat) (b1 b2 : Option IssuerResponse)
    (after : String) (h : 300 ≤ s) :
    doRequest ⟨s, b1⟩ = .error (.statusError s) ∧
    doRequest ⟨s, b1⟩ = doRequest ⟨s, b2⟩ ∧
    getIssuers after (doRequest ⟨s, b1⟩) = ⟨[], "", some (.statusError s)⟩ := by
  unfold doRequest
  simp [h, getIssuers]

/-- Witness for doRequest_ge300_error at status 404. -/
theorem doRequest_ge300_error_witness :
    doRequest (β := IssuerResponse) ⟨404, some ⟨[], ""⟩⟩ =
      .error (.statusError 404) ∧
    doRequest (β := IssuerResponse) ⟨404, some ⟨[], ""⟩⟩ =
      doRequest ⟨404, none⟩ ∧
    getIssuers "" (doRequest (β := IssuerResponse) ⟨404, some ⟨[], ""⟩⟩) =
      ⟨[], "", some (.statusError 404)⟩ :=
  doRequest_ge300_error 404 (some ⟨[], ""⟩) none "" (by decide)

/-- C8 counterexample: ResourceSyncers (connector.go lines 35-40) registers
no portfolio syncer, so the claim that it contains one syncer for each of
issuers, investors and portfolios is false. -/
theorem resourceSyncers_missing_portfolio :
    SyncerKind.portfolioSyncer ∉ resourceSyncers ∧
    resourceSyncers.length = 2 := by
  decide

/-- C8 amended: ResourceSyncers contains exactly one syncer for issuers and
one for investor firms, in that order; the portfolio syncer builder exists
in the package but is not included in the list. -/
theorem resourceSyncers_exact :
    resourceSyncers = [SyncerKind.issuerSyncer, SyncerKind.investorSyncer] ∧
    SyncerKind.issuerSyncer ∈ resourceSyncers ∧
    SyncerKind.investorSyncer ∈ resourceSyncers ∧
    SyncerKind.portfolioSyncer ∉ resourceSyncers := by
  decide

/-- C1: every fetcher returns the service's nextPageToken as the next
cursor exactly when that token is non-empty and differs from the afterCursor
that requested the page, and the empty string otherwise; the page's items
are returned either way (for GetPortfolios, once the aggregation of the
page succeeded). -/
theorem fetcher_cursor_guard :
    (∀ (after : String) (resp : IssuerResponse),
      getIssuers after (.ok resp) =
        ⟨resp.issuers,
          if resp.next ≠ "" ∧ resp.next ≠ after then resp.next else "",
          none⟩) ∧
    (∀ (after : String) (resp : InvestorResponse),
      getInvestors after (.ok resp) =
        ⟨resp.firms,
          if resp.next ≠ "" ∧ resp.next ≠ after then resp.next else "",
          none⟩) ∧
    (∀ (after : String) (resp : PortfolioIssuerResponse),
      getIssuersForPortfolio after (.ok resp) =
        ⟨resp.issuers,
          if resp.next ≠ "" ∧ resp.next ≠ after then resp.next else "",
          none⟩) ∧
    (∀ (after : String) (resp : PortfolioResponse)
      (inner : String → List (Except Err PortfolioIssuerResponse))
      (ps : List Portfolio),
      aggregatePortfolios inner resp.portfolios = some (.ok ps) →
      getPortfolios after (.ok resp) inner =
        some ⟨ps,
          if resp.next ≠ "" ∧ resp.next ≠ after then resp.next else "",
          none⟩) := by
  refine ⟨?_, ?_, ?_, ?_⟩
  · intro after resp
    unfold getIssuers
    by_cases h1 : resp.next = "" <;> by_cases h2 : resp.next = after <;>
      simp [h1, h2, Ne.symm, ne_comm]
  · intro after resp
    unfold getInvestors
    by_cases h1 : resp.next = "" <;> by_cases h2 : resp.next = after <;>
      simp [h1, h2, Ne.symm, ne_comm]
  · intro after resp
    unfold getIssuersForPortfolio
    by_cases h1 : resp.next = "" <;> by_cases h2 : resp.next = after <;>
      simp [h1, h2, Ne.symm, ne_comm]
  · intro after resp inner ps hagg
    simp only [getPortfolios, hagg]
    by_cases h1 : resp.next = "" <;> by_cases h2 : resp.next = after <;>
      simp [h1, h2, Ne.symm, ne_comm]

/-- Witness for fetcher_cursor_guard: an echoed cursor "tok2" yields an
empty next cursor while the items are still returned, both for GetIssuers
and for GetPortfolios. -/
theorem fetcher_cursor_guard_witness :
    getIssuers "tok2" (.ok ⟨[⟨"i1", "", ""⟩, ⟨"i2", "", ""⟩], "tok2"⟩) =
      ⟨[⟨"i1", "", ""⟩, ⟨"i2", "", ""⟩], "", none⟩ ∧
    getPortfolios "tok2" (.ok ⟨[⟨"p1", "P1", []⟩], "tok2"⟩)
        (fun _ => okScript [⟨[], ""⟩]) =
      some ⟨[⟨"p1", "P1", []⟩], "", none⟩ := by
  constructor
  · have h := fetcher_cursor_guard.1 "tok2"
      ⟨[⟨"i1", "", ""⟩, ⟨"i2", "", ""⟩], "tok2"⟩
    simpa using h
  · have h := fetcher_cursor_guard.2.2.2 "tok2" ⟨[⟨"p1", "P1", []⟩], "tok2"⟩
      (fun _ => okScript [⟨[], ""⟩]) [⟨"p1", "P1", []⟩] rfl
    simpa using h

/-- Helper: if the k-th scripted response echoes the cursor that requests
it, the inner loop stops within k+1 iterations, for any starting cursor and
accumulator. -/
theorem drainIssuers_echo_aux (script : List PortfolioIssuerResponse) :
    ∀ (after : String) (acc : List Issuer) (k : Nat),
      k < script.length →
      (script.getD k dResp).next = reqCursor after script k →
      ∃ res n, drainIssuers (okScript script) after acc = some (res, n) ∧
        n ≤ k + 1 := by
  induction script with
  | nil =>
    intro after acc k hk
    simp at hk
  | cons r rest ih =>
    intro after acc k hk hecho
    rw [okScript_cons, drainIssuers_cons_ok]
    by_cases hc : after ≠ r.next ∧ r.next ≠ ""
    · rw [if_pos hc]
      cases k with
      | zero =>
        exfalso
        simp only [List.getD_cons_zero, reqCursor] at hecho
        exact hc.1 hecho.symm
      | succ j =>
        have hj : j < rest.length := by
          simpa using Nat.lt_of_succ_lt_succ hk
        have hecho' : (rest.getD j dResp).next = reqCursor r.next rest j := by
          cases j with
          | zero =>
            simpa [reqCursor, List.getD_cons_zero, List.getD_cons_succ]
              using hecho
          | succ m =>
            simpa [reqCursor, List.getD_cons_succ] using hecho
        obtain ⟨res, n, hd, hn⟩ := ih r.next (acc ++ r.issuers) j hj hecho'
        rw [hd]
        exact ⟨res, n + 1, rfl, by omega⟩
    · rw [if_neg hc]
      exact ⟨.ok (acc ++ r.issuers), 1, rfl, by omega⟩

/-- C2: if the service's k-th nested-issuer response (0-based) echoes back
the same non-empty cursor that requested it, the inner pagination loop of
GetPortfolios terminates, consuming at most k+1 responses. -/
theorem innerLoop_echo_terminates (script : List PortfolioIssuerResponse)
    (after : String) (k : Nat) (hk : k < script.length)
    (hecho : (script.getD k dResp).next = reqCursor after script k)
    (_hne : reqCursor after script k ≠ "") :
    ∃ res n, drainIssuers (okScript script) after [] = some (res, n) ∧
      n ≤ k + 1 :=
  drainIssuers_echo_aux script after [] k hk hecho

/-- Witness for innerLoop_echo_terminates: a script whose second response
echoes the cursor "t" that requested it makes the loop stop within two
iterations. -/
theorem innerLoop_echo_terminates_witness :
    ∃ res n,
      drainIssuers (okScript [⟨[], "t"⟩, ⟨[], "t"⟩, ⟨[], "u"⟩]) "" [] =
        some (res, n) ∧ n ≤ 2 :=
  innerLoop_echo_terminates [⟨[], "t"⟩, ⟨[], "t"⟩, ⟨[], "u"⟩] "" 1
    (by decide) (by decide) (by decide)

/-- Helper: a stopping point in the script makes the inner loop terminate,
for any accumulator. -/
theorem drainIssuers_isSome_of_stopsAt (script : List PortfolioIssuerResponse) :
    ∀ (after : String) (acc : List Issuer) (k : Nat),
      stopsAt after script k →
      (drainIssuers (okScript script) after acc).isSome := by
  induction script with
  | nil =>
    intro after acc k hs
    exact absurd hs.1 (by simp)
  | cons r rest ih =>
    intro after acc k hs
    rw [okScript_cons, drainIssuers_cons_ok]
    by_cases hc : after ≠ r.next ∧ r.next ≠ ""
    · rw [if_pos hc]
      cases k with
      | zero =>
        exfalso
        rcases hs.2 with h | h
        · rw [List.getD_cons_zero] at h
          exact hc.2 h
        · simp only [List.getD_cons_zero, reqCursor] at h
          exact hc.1 h.symm
      | succ j =>
        have hj : j < rest.length := by
          have := hs.1
          simpa using Nat.lt_of_succ_lt_succ this
        have hs' : stopsAt r.next rest j := by
          refine ⟨hj, ?_⟩
          have h2 := hs.2
          cases j with
          | zero =>
            simpa [stopsAt, reqCursor, List.getD_cons_zero,
              List.getD_cons_succ] using h2
          | succ m =>
            simpa [stopsAt, reqCursor, List.getD_cons_succ] using h2
        have := ih r.next (acc ++ r.issuers) j hs'
        cases hd : drainIssuers (okScript rest) r.next (acc ++ r.issuers) with
        | none => rw [hd] at this; simp at this
        | some p => rfl
    · rw [if_neg hc]
      rfl

/-- Helper: if the inner loop terminates on a pure script, the script has a
stopping point: a response with an empty nextPageToken or one echoing the
cursor that requested it. -/
theorem drainIssuers_stopsAt_of_isSome (script : List PortfolioIssuerResponse) :
    ∀ (after : String) (acc : List Issuer),
      (drainIssuers (okScript script) after acc).isSome →
      ∃ k, stopsAt after script k := by
  induction script with
  | nil =>
    intro after acc h
    simp [okScript, drainIssuers] at h
  | cons r rest ih =>
    intro after acc h
    rw [okScript_cons, drainIssuers_cons_ok] at h
    by_cases hc : after ≠ r.next ∧ r.next ≠ ""
    · rw [if_pos hc] at h
      cases hd : drainIssuers (okScript rest) r.next (acc ++ r.issuers) with
      | none => rw [hd] at h; simp at h
      | some p =>
        obtain ⟨k, hk, hstop⟩ := ih r.next (acc ++ r.issuers) (by rw [hd]; rfl)
        refine ⟨k + 1, by simpa using Nat.succ_lt_succ hk, ?_⟩
        cases k with
        | zero =>
          simpa [reqCursor, List.getD_cons_zero, List.getD_cons_succ]
            using hstop
        | succ m =>
          simpa [reqCursor, List.getD_cons_succ] using hstop
    · refine ⟨0, by simp, ?_⟩
      rw [not_and_or, not_not] at hc
      rcases hc with h1 | h2
      · right
        simp only [List.getD_cons_zero, reqCursor]
        exact h1.symm
      · left
        rw [not_not] at h2
        rw [List.getD_cons_zero]
        exact h2

/-- Helper: against a service alternating forever between two distinct
non-empty cursors, the inner loop never stops: every finite script of
alternating responses is exhausted with the loop still wanting a page. -/
theorem drainIssuers_alt_aux (n : Nat) :
    ∀ (a b after : String) (acc : List Issuer), a ≠ "" → b ≠ "" → a ≠ b →
      after ≠ a →
      drainIssuers (okScript (altScript a b n)) after acc = none := by
  induction n with
  | zero =>
    intro a b after acc _ _ _ _
    rfl
  | succ m ih =>
    intro a b after acc ha hb hab hafter
    show drainIssuers (okScript (⟨[], a⟩ :: altScript b a m)) after acc = none
    rw [okScript_cons, drainIssuers_cons_ok]
    have hc : after ≠ (⟨[], a⟩ : PortfolioIssuerResponse).next ∧
        (⟨[], a⟩ : PortfolioIssuerResponse).next ≠ "" := ⟨hafter, ha⟩
    rw [if_pos hc]
    rw [ih b a a (acc ++ []) hb ha (Ne.symm hab) hab]

/-- C9: on a scripted (pure) service, the inner nested-issuer loop of
GetPortfolios terminates within the script iff some scripted response has
an empty nextPageToken or echoes exactly the cursor that requested it; a
service alternating forever between two distinct non-empty cursors never
satisfies this, so the loop consumes every script the service produces and
never stops. -/
theorem innerLoop_termination_iff :
    (∀ (script : List PortfolioIssuerResponse) (after : String)
      (acc : List Issuer),
      (drainIssuers (okScript script) after acc).isSome ↔
        ∃ k, stopsAt after script k) ∧
    (∀ (a b : String) (n : Nat), a ≠ "" → b ≠ "" → a ≠ b →
      drainIssuers (okScript (altScript a b n)) "" [] = none) := by
  constructor
  · intro script after acc
    constructor
    · exact drainIssuers_stopsAt_of_isSome script after acc
    · rintro ⟨k, hk⟩
      exact drainIssuers_isSome_of_stopsAt script after acc k hk
  · intro a b n ha hb hab
    exact drainIssuers_alt_aux n a b "" [] ha hb hab (Ne.symm ha)

/-- Witness for innerLoop_termination_iff: the loop never stops against the
alternating cursors "x"/"y" (here for the first three responses), while a
lone response with an empty nextPageToken is a stopping point, so the loop
terminates on it. -/
theorem innerLoop_termination_iff_witness :
    drainIssuers (okScript (altScript "x" "y" 3)) "" [] = none ∧
    (drainIssuers (okScript [(⟨[], ""⟩ : PortfolioIssuerResponse)]) ""
        []).isSome = true := by
  constructor
  · exact innerLoop_termination_iff.2 "x" "y" 3 (by decide) (by decide)
      (by decide)
  · exact (innerLoop_termination_iff.1 [⟨[], ""⟩] "" []).mpr ⟨0, by decide⟩

/-- Helper: a successful inner-loop run consumes a prefix of the script and
returns the accumulator followed by the concatenation of the consumed
pages' issuers, in page order. -/
theorem drainIssuers_ok_flatten
    (script : List (Except Err PortfolioIssuerResponse)) :
    ∀ (after : String) (acc res : List Issuer) (n : Nat),
      drainIssuers script after acc = some (.ok res, n) →
      n ≤ script.length ∧ 0 < n ∧
      res = acc ++ (script.take n).flatMap okItems := by
  induction script with
  | nil =>
    intro after acc res n h
    simp [drainIssuers] at h
  | cons s rest ih =>
    intro after acc res n h
    match s with
    | .error e =>
      rw [drainIssuers_cons_error] at h
      simp at h
    | .ok r =>
      rw [drainIssuers_cons_ok] at h
      by_cases hc : after ≠ r.next ∧ r.next ≠ ""
      · rw [if_pos hc] at h
        cases hd : drainIssuers rest r.next (acc ++ r.issuers) with
        | none => rw [hd] at h; simp at h
        | some p =>
          rw [hd] at h
          obtain ⟨p1, p2⟩ := p
          simp only [Option.some.injEq, Prod.mk.injEq] at h
          obtain ⟨h1, h2⟩ := h
          subst h1
          obtain ⟨hlen, hpos, hres⟩ := ih r.next (acc ++ r.issuers) res p2 hd
          refine ⟨?_, ?_, ?_⟩
          · simp only [List.length_cons]; omega
          · omega
          · subst h2
            rw [hres]
            simp [okItems, List.append_assoc]
      · rw [if_neg hc] at h
        simp only [Option.some.injEq, Prod.mk.injEq, Except.ok.injEq] at h
        obtain ⟨h1, h2⟩ := h
        subst h2
        refine ⟨by simp, by omega, ?_⟩
        rw [← h1]
        simp [okItems]

/-- Helper: a successful aggregation returns one portfolio per input
portfolio, in order; each output portfolio is the corresponding input with
only its Issuers field replaced by the result of draining its nested
sub-collection from the empty cursor. -/
theorem aggregatePortfolios_ok_spec
    (inner : String → List (Except Err PortfolioIssuerResponse)) :
    ∀ (ps rs : List Portfolio),
      aggregatePortfolios inner ps = some (.ok rs) →
      rs.length = ps.length ∧
      ∀ i, i < ps.length →
        (∃ n, drainIssuers (inner ((ps.getD i dPortfolio).Id)) "" [] =
          some (.ok ((rs.getD i dPortfolio).Issuers), n)) ∧
        rs.getD i dPortfolio =
          { ps.getD i dPortfolio with
              Issuers := (rs.getD i dPortfolio).Issuers } := by
  intro ps
  induction ps with
  | nil =>
    intro rs h
    simp only [aggregatePortfolios, Option.some.injEq, Except.ok.injEq] at h
    subst h
    exact ⟨rfl, fun i hi => absurd hi (by simp)⟩
  | cons p rest ih =>
    intro rs h
    rw [show aggregatePortfolios inner (p :: rest) =
        match drainIssuers (inner p.Id) "" [] with
        | none => none
        | some (.error e, _) => some (.error e)
        | some (.ok issuers, _) =>
          match aggregatePortfolios inner rest with
          | none => none
          | some (.error e) => some (.error e)
          | some (.ok ps) =>
            some (.ok ({ p with Issuers := issuers } :: ps)) from rfl] at h
    cases hd : drainIssuers (inner p.Id) "" [] with
    | none => rw [hd] at h; simp at h
    | some q =>
      obtain ⟨q1, m⟩ := q
      rw [hd] at h
      match q1 with
      | .error e => simp at h
      | .ok issuers =>
        cases ha : aggregatePortfolios inner rest with
        | none => rw [ha] at h; simp at h
        | some a =>
          rw [ha] at h
          match a with
          | .error e => simp at h
          | .ok ps' =>
            simp only [Option.some.injEq, Except.ok.injEq] at h
            subst h
            obtain ⟨hlen, hspec⟩ := ih ps' ha
            refine ⟨by simp [hlen], ?_⟩
            intro i hi
            cases i with
            | zero =>
              refine ⟨⟨m, ?_⟩, ?_⟩
              · simpa [List.getD_cons_zero] using hd
              · simp [List.getD_cons_zero]
            | succ j =>
              have hj : j < rest.length := by simpa using hi
              simpa [List.getD_cons_succ] using hspec j hj

/-- Helper: if all portfolios before index i drain successfully and the
drain for index i fails with error e, the aggregation of the whole page
yields exactly that error. -/
theorem aggregatePortfolios_error_spec
    (inner : String → List (Except Err PortfolioIssuerResponse)) :
    ∀ (ps : List Portfolio) (i : Nat) (e : Err) (n : Nat),
      i < ps.length →
      (∀ j, j < i → ∃ issuers m,
        drainIssuers (inner ((ps.getD j dPortfolio).Id)) "" [] =
          some (.ok issuers, m)) →
      drainIssuers (inner ((ps.getD i dPortfolio).Id)) "" [] =
        some (.error e, n) →
      aggregatePortfolios inner ps = some (.error e) := by
  intro ps
  induction ps with
  | nil =>
    intro i e n hi
    exact absurd hi (by simp)
  | cons p rest ih =>
    intro i e n hi hok herr
    rw [show aggregatePortfolios inner (p :: rest) =
        match drainIssuers (inner p.Id) "" [] with
        | none => none
        | some (.error e, _) => some (.error e)
        | some (.ok issuers, _) =>
          match aggregatePortfolios inner rest with
          | none => none
          | some (.error e) => some (.error e)
          | some (.ok ps) =>
            some (.ok ({ p with Issuers := issuers } :: ps)) from rfl]
    cases i with
    | zero =>
      rw [List.getD_cons_zero] at herr
      rw [herr]
    | succ j =>
      obtain ⟨issuers, m, hd⟩ := hok 0 (Nat.succ_pos j)
      rw [List.getD_cons_zero] at hd
      rw [hd]
      have hrec := ih j e n (by simpa using hi)
        (fun k hk => by
          simpa [List.getD_cons_succ] using hok (k + 1)
            (Nat.succ_lt_succ hk))
        (by simpa [List.getD_cons_succ] using herr)
      rw [hrec]

/-- Helper: a successful GetPortfolios result comes from a successful
aggregation of the fetched portfolio page. -/
theorem getPortfolios_ok_inv (after : String) (resp : PortfolioResponse)
    (inner : String → List (Except Err PortfolioIssuerResponse))
    (ps : List Portfolio) (c : String)
    (h : getPortfolios after (.ok resp) inner = some ⟨ps, c, none⟩) :
    aggregatePortfolios inner resp.portfolios = some (.ok ps) := by
  rw [show getPortfolios after (.ok resp) inner =
      match aggregatePortfolios inner resp.portfolios with
      | none => none
      | some (.error e) => some ⟨[], "", some e⟩
      | some (.ok ps) =>
        if after ≠ resp.next ∧ resp.next ≠ "" then some ⟨ps, resp.next, none⟩
        else some ⟨ps, "", none⟩ from rfl] at h
  cases ha : aggregatePortfolios inner resp.portfolios with
  | none => rw [ha] at h; simp at h
  | some a =>
    rw [ha] at h
    match a with
    | .error e => simp [FetchResult.mk.injEq] at h
    | .ok ps' =>
      have h' : (if after ≠ resp.next ∧ resp.next ≠ "" then
          (some ⟨ps', resp.next, none⟩ : Option (FetchResult Portfolio))
          else some ⟨ps', "", none⟩) = some ⟨ps, c, none⟩ := h
      by_cases hc : after ≠ resp.next ∧ resp.next ≠ ""
      · rw [if_pos hc] at h'
        simp only [Option.some.injEq, FetchResult.mk.injEq] at h'
        rw [h'.1]
      · rw [if_neg hc] at h'
        simp only [Option.some.injEq, FetchResult.mk.injEq] at h'
        rw [h'.1]

/-- C3: a successful GetPortfolios page has one output portfolio per fetched
portfolio; each output portfolio's issuer field is exactly the result of
draining its nested issuer sub-collection, i.e. the concatenation of the
consumed inner pages' issuer records in page order, and its length is the
total issuer count accumulated across those pages. -/
theorem getPortfolios_flattens_inner_pages (after : String)
    (resp : PortfolioResponse)
    (inner : String → List (Except Err PortfolioIssuerResponse))
    (ps : List Portfolio) (c : String)
    (h : getPortfolios after (.ok resp) inner = some ⟨ps, c, none⟩) :
    ps.length = resp.portfolios.length ∧
    ∀ i, i < ps.length → ∃ n,
      n ≤ (inner ((resp.portfolios.getD i dPortfolio).Id)).length ∧
      drainIssuers (inner ((resp.portfolios.getD i dPortfolio).Id)) "" [] =
        some (.ok ((ps.getD i dPortfolio).Issuers), n) ∧
      (ps.getD i dPortfolio).Issuers =
        ((inner ((resp.portfolios.getD i dPortfolio).Id)).take n).flatMap
          okItems ∧
      (ps.getD i dPortfolio).Issuers.length =
        (((inner ((resp.portfolios.getD i dPortfolio).Id)).take n).map
          (fun s => (okItems s).length)).sum := by
  have hagg := getPortfolios_ok_inv after resp inner ps c h
  obtain ⟨hlen, hspec⟩ := aggregatePortfolios_ok_spec inner resp.portfolios
    ps hagg
  refine ⟨hlen, ?_⟩
  intro i hi
  obtain ⟨⟨n, hd⟩, _⟩ := hspec i (hlen ▸ hi)
  obtain ⟨hn, _, hres⟩ := drainIssuers_ok_flatten
    (inner ((resp.portfolios.getD i dPortfolio).Id)) "" []
    ((ps.getD i dPortfolio).Issuers) n hd
  refine ⟨n, hn, hd, by simpa using hres, ?_⟩
  rw [show (ps.getD i dPortfolio).Issuers =
      ((inner ((resp.portfolios.getD i dPortfolio).Id)).take n).flatMap
        okItems from by simpa using hres]
  exact List.length_flatMap _ _

/-- Witness for getPortfolios_flattens_inner_pages: one portfolio whose
nested sub-collection yields a first page of two issuers with a
continuation cursor and a second page of one issuer with an empty cursor
is returned listing all three issuers in page order. -/
theorem getPortfolios_flattens_inner_pages_witness :
    ([(⟨"p1", "P1", [⟨"a", "", ""⟩, ⟨"b", "", ""⟩, ⟨"c", "", ""⟩]⟩ :
        Portfolio)].length = 1) ∧
    ∃ n, n ≤ 2 ∧
      drainIssuers
        (okScript [⟨[⟨"a", "", ""⟩, ⟨"b", "", ""⟩], "t"⟩, ⟨[⟨"c", "", ""⟩], ""⟩])
        "" [] =
        some (.ok [⟨"a", "", ""⟩, ⟨"b", "", ""⟩, ⟨"c", "", ""⟩], n) ∧
      ([⟨"a", "", ""⟩, ⟨"b", "", ""⟩, ⟨"c", "", ""⟩] : List Issuer) =
        ((okScript [⟨[⟨"a", "", ""⟩, ⟨"b", "", ""⟩], "t"⟩,
          ⟨[⟨"c", "", ""⟩], ""⟩]).take n).flatMap okItems ∧
      ([⟨"a", "", ""⟩, ⟨"b", "", ""⟩, ⟨"c", "", ""⟩] : List Issuer).length =
        (((okScript [⟨[⟨"a", "", ""⟩, ⟨"b", "", ""⟩], "t"⟩,
          ⟨[⟨"c", "", ""⟩], ""⟩]).take n).map
            (fun s => (okItems s).length)).sum := by
  have h := getPortfolios_flattens_inner_pages ""
    ⟨[⟨"p1", "P1", []⟩], ""⟩
    (fun _ => okScript [⟨[⟨"a", "", ""⟩, ⟨"b", "", ""⟩], "t"⟩,
      ⟨[⟨"c", "", ""⟩], ""⟩])
    [⟨"p1", "P1", [⟨"a", "", ""⟩, ⟨"b", "", ""⟩, ⟨"c", "", ""⟩]⟩] "" rfl
  refine ⟨rfl, ?_⟩
  have h2 := h.2 0 (by simp)
  simpa [dPortfolio] using h2

/-- C7: a successful GetPortfolios returns, position by position, exactly
the portfolio records decoded from the portfolio page with only the
Issuers field replaced; Id and Name are unchanged. -/
theorem getPortfolios_frame (after : String) (resp : PortfolioResponse)
    (inner : String → List (Except Err PortfolioIssuerResponse))
    (ps : List Portfolio) (c : String)
    (h : getPortfolios after (.ok resp) inner = some ⟨ps, c, none⟩) :
    ps.length = resp.portfolios.length ∧
    ∀ i, i < ps.length →
      (ps.getD i dPortfolio).Id = (resp.portfolios.getD i dPortfolio).Id ∧
      (ps.getD i dPortfolio).Name =
        (resp.portfolios.getD i dPortfolio).Name ∧
      ps.getD i dPortfolio =
        { resp.portfolios.getD i dPortfolio with
            Issuers := (ps.getD i dPortfolio).Issuers } := by
  have hagg := getPortfolios_ok_inv after resp inner ps c h
  obtain ⟨hlen, hspec⟩ := aggregatePortfolios_ok_spec inner resp.portfolios
    ps hagg
  refine ⟨hlen, ?_⟩
  intro i hi
  obtain ⟨_, hframe⟩ := hspec i (hlen ▸ hi)
  exact ⟨by rw [hframe], by rw [hframe], hframe⟩

/-- Witness for getPortfolios_frame: the portfolio's Id and Name survive the
aggregation unchanged. -/
theorem getPortfolios_frame_witness :
    ([(⟨"p1", "P1", [⟨"a", "", ""⟩]⟩ : Portfolio)].length = 1) ∧
    (([(⟨"p1", "P1", [⟨"a", "", ""⟩]⟩ : Portfolio)].getD 0 dPortfolio).Id =
      "p1") ∧
    (([(⟨"p1", "P1", [⟨"a", "", ""⟩]⟩ : Portfolio)].getD 0
      dPortfolio).Name = "P1") := by
  have h := getPortfolios_frame "" ⟨[⟨"p1", "P1", []⟩], ""⟩
    (fun _ => okScript [⟨[⟨"a", "", ""⟩], ""⟩])
    [⟨"p1", "P1", [⟨"a", "", ""⟩]⟩] "" rfl
  have h2 := h.2 0 (by simp)
  exact ⟨rfl, h2.1.trans rfl, h2.2.1.trans rfl⟩

/-- C4: if the portfolios at positions before i drain successfully and the
nested fetch for the portfolio at position i fails with error e, then
GetPortfolios returns exactly (nil, "", e): the whole outer page is aborted
and no partially aggregated portfolios are returned. -/
theorem getPortfolios_inner_error_aborts (after : String)
    (resp : PortfolioResponse)
    (inner : String → List (Except Err PortfolioIssuerResponse))
    (i : Nat) (e : Err) (n : Nat)
    (hi : i < resp.portfolios.length)
    (hok : ∀ j, j < i → ∃ issuers m,
      drainIssuers (inner ((resp.portfolios.getD j dPortfolio).Id)) "" [] =
        some (.ok issuers, m))
    (herr : drainIssuers (inner ((resp.portfolios.getD i dPortfolio).Id))
      "" [] = some (.error e, n)) :
    getPortfolios after (.ok resp) inner = some ⟨[], "", some e⟩ := by
  have hagg := aggregatePortfolios_error_spec inner resp.portfolios i e n
    hi hok herr
  rw [show getPortfolios after (.ok resp) inner =
      match aggregatePortfolios inner resp.portfolios with
      | none => none
      | some (.error e) => some ⟨[], "", some e⟩
      | some (.ok ps) =>
        if after ≠ resp.next ∧ resp.next ≠ "" then some ⟨ps, resp.next, none⟩
        else some ⟨ps, "", none⟩ from rfl, hagg]

/-- Witness for getPortfolios_inner_error_aborts: a page of two portfolios
where the first drains fine and the second hits a 500 on its nested fetch
yields (nil, "", statusError 500). -/
theorem getPortfolios_inner_error_aborts_witness :
    getPortfolios "" (.ok ⟨[⟨"p1", "P1", []⟩, ⟨"p2", "P2", []⟩], "t"⟩)
      (fun pid => if pid = "p2" then [.error (.statusError 500)]
        else okScript [⟨[⟨"a", "", ""⟩], ""⟩]) =
      some ⟨[], "", some (.statusError 500)⟩ := by
  refine getPortfolios_inner_error_aborts ""
    ⟨[⟨"p1", "P1", []⟩, ⟨"p2", "P2", []⟩], "t"⟩ _ 1 (.statusError 500) 1
    (by simp) ?_ (by rfl)
  intro j hj
  interval_cases j
  exact ⟨[⟨"a", "", ""⟩], 1, rfl⟩

/-! ## strings.Join / strings.Split lemmas for the portfolio profile -/

/-- Helper: splitting a separator-free character list yields that list as
the single field. -/
theorem goSplitChar_no_sep (sep : Char) :
    ∀ (l : List Char), sep ∉ l → goSplitChar sep l = [l] := by
  intro l
  induction l with
  | nil => intro _; rfl
  | cons c r ih =>
    intro hmem
    have hc : ¬ c = sep := fun hcs => hmem (hcs ▸ List.mem_cons_self c r)
    have hr : sep ∉ r := fun hs => hmem (List.mem_cons_of_mem c hs)
    rw [goSplitChar, if_neg hc, ih hr]

/-- Helper: splitting a list that starts with a separator-free field
followed by a separator peels off that field. -/
theorem goSplitChar_append_sep (sep : Char) :
    ∀ (x t : List Char), sep ∉ x →
      goSplitChar sep (x ++ sep :: t) = x :: goSplitChar sep t := by
  intro x
  induction x with
  | nil =>
    intro t _
    rw [List.nil_append, goSplitChar, if_pos rfl]
  | cons c x' ih =>
    intro t hmem
    have hc : ¬ c = sep := fun hcs => hmem (hcs ▸ List.mem_cons_self c x')
    have hx : sep ∉ x' := fun hs => hmem (List.mem_cons_of_mem c hs)
    rw [List.cons_append, goSplitChar, if_neg hc, ih t hx]

/-- Helper: splitting never yields the empty field list. -/
theorem goSplitChar_ne_nil (sep : Char) :
    ∀ (l : List Char), goSplitChar sep l ≠ [] := by
  intro l
  induction l with
  | nil => simp [goSplitChar]
  | cons c r ih =>
    rw [goSplitChar]
    by_cases hc : c = sep
    · rw [if_pos hc]; simp
    · rw [if_neg hc]
      cases hs : goSplitChar sep r with
      | nil => simp
      | cons g gs => simp

/-- Helper: every field produced by splitting is separator-free. -/
theorem goSplitChar_mem_no_sep (sep : Char) :
    ∀ (l : List Char) (g : List Char), g ∈ goSplitChar sep l → sep ∉ g := by
  intro l
  induction l with
  | nil =>
    intro g hg
    rw [goSplitChar] at hg
    simp only [List.mem_singleton] at hg
    subst hg
    simp
  | cons c r ih =>
    intro g hg
    rw [goSplitChar] at hg
    by_cases hc : c = sep
    · rw [if_pos hc] at hg
      rcases List.mem_cons.mp hg with h | h
      · subst h; simp
      · exact ih g h
    · rw [if_neg hc] at hg
      cases hs : goSplitChar sep r with
      | nil =>
        rw [hs] at hg
        simp only [List.mem_singleton] at hg
        subst hg
        intro hmem
        rcases List.mem_cons.mp hmem with h | h
        · exact hc h.symm
        · exact absurd h (by simp)
      | cons g0 gs =>
        rw [hs] at hg
        rcases List.mem_cons.mp hg with h | h
        · subst h
          intro hmem
          rcases List.mem_cons.mp hmem with h | h
          · exact hc h.symm
          · exact ih g0 (hs ▸ List.mem_cons_self g0 gs) h
        · exact ih g (hs ▸ List.mem_cons_of_mem g0 h)

/-- Helper: splitting undoes joining for a non-empty list of separator-free
fields. -/
theorem goSplitChar_goJoinChar (sep : Char) :
    ∀ (xss : List (List Char)), xss ≠ [] → (∀ l ∈ xss, sep ∉ l) →
      goSplitChar sep (goJoinChar sep xss) = xss := by
  intro xss
  induction xss with
  | nil => intro h; exact absurd rfl h
  | cons x ys ih =>
    intro _ hfree
    cases ys with
    | nil =>
      rw [goJoinChar, goSplitChar_no_sep sep x
        (hfree x (List.mem_cons_self x []))]
    | cons y ys' =>
      rw [goJoinChar, goSplitChar_append_sep sep x _
        (hfree x (List.mem_cons_self x (y :: ys')))]
      rw [ih (by simp) (fun l hl => hfree l (List.mem_cons_of_mem x hl))]

/-- Helper: a Lean string rebuilt from its character list is itself. -/
theorem string_mk_toList (s : String) : (⟨s.toList⟩ : String) = s := rfl

/-- C10: the comma join written into the portfolio profile and the comma
split performed by Grants form a round-trip exactly for non-empty id lists
whose ids contain no comma; for a portfolio whose aggregated issuer list is
empty the joined profile value is the empty string, whose split is the
one-element list [""], so Grants performs exactly one issuer lookup, with
the empty id, instead of returning zero grants. -/
theorem grants_join_split_roundtrip :
    (∀ xs : List String, goSplit (goJoin xs) = xs ↔
      (xs ≠ [] ∧ ∀ s ∈ xs, ',' ∉ s.toList)) ∧
    (∀ p : Portfolio, p.Issuers = [] →
      portfolioIssuerIdsValue p = "" ∧
      grantsIssuerLookups (portfolioIssuerIdsValue p) = [""] ∧
      (grantsIssuerLookups (portfolioIssuerIdsValue p)).length = 1) := by
  constructor
  · intro xs
    constructor
    · intro hrt
      constructor
      · intro hnil
        subst hnil
        rw [show goSplit (goJoin []) = [""] from rfl] at hrt
        exact absurd hrt (by simp)
      · intro s hs
        unfold goSplit at hrt
        have hmem : s.toList ∈ goSplitChar ',' (goJoin xs).toList := by
          have : (⟨s.toList⟩ : String) ∈
              (goSplitChar ',' (goJoin xs).toList).map
                (fun l => (⟨l⟩ : String)) := by
            rw [hrt]
            exact (string_mk_toList s) ▸ hs
          obtain ⟨l, hl, hls⟩ := List.mem_map.mp this
          have : s.toList = l := (congrArg String.data hls).symm
          rw [this]
          exact hl
        exact goSplitChar_mem_no_sep ',' _ _ hmem
    · rintro ⟨hnil, hfree⟩
      unfold goSplit goJoin
      have h1 : (⟨goJoinChar ',' (xs.map String.toList)⟩ : String).toList =
          goJoinChar ',' (xs.map String.toList) := rfl
      rw [h1, goSplitChar_goJoinChar ',' (xs.map String.toList)
        (by simpa using hnil)
        (by
          intro l hl
          obtain ⟨s, hs, hsl⟩ := List.mem_map.mp hl
          exact hsl ▸ hfree s hs)]
      rw [List.map_map]
      have : (fun l => (⟨l⟩ : String)) ∘ String.toList = id := by
        funext s
        exact string_mk_toList s
      rw [this, List.map_id]
  · intro p hp
    refine ⟨?_, ?_, ?_⟩
    · unfold portfolioIssuerIdsValue mapIssuerIds
      rw [hp]
      rfl
    · unfold grantsIssuerLookups portfolioIssuerIdsValue mapIssuerIds
      rw [hp]
      rfl
    · unfold grantsIssuerLookups portfolioIssuerIdsValue mapIssuerIds
      rw [hp]
      rfl

/-- Witness for grants_join_split_roundtrip: the comma-free ids "i1","i2"
round-trip, and the empty-issuer portfolio yields one lookup with the
empty id. -/
theorem grants_join_split_roundtrip_witness :
    goSplit (goJoin ["i1", "i2"]) = ["i1", "i2"] ∧
    grantsIssuerLookups (portfolioIssuerIdsValue ⟨"p1", "P1", []⟩) = [""] := by
  constructor
  · exact (grants_join_split_roundtrip.1 ["i1", "i2"]).mpr
      ⟨by simp, by decide⟩
  · exact (grants_join_split_roundtrip.2 ⟨"p1", "P1", []⟩ rfl).2.1

end Carta
